import Mathlib

/-!
Verification development for the `github_protection_agent` backend.

The definitions below are a shallow embedding of the Python sources:

* `filecoin_contracts.py` — nonce caching (`_get_nonce`, `_increment_nonce`),
  the transaction submission retry loop (`_send_transaction_with_retry`) and
  the three on-chain entry points that guard on a configured account.
* `blockchain_utilities.py` — `retry_transaction`, `estimate_total_cost`,
  `validate_ipfs_hash`, `extract_cid_from_url`, `generate_ipfs_urls`.
* `enhanced_ipfs_manager.py` — `_determine_service_priority`, `upload_to_ipfs`.
* `complete_filecoin_agent.py` — the similarity-threshold decisions of
  `scan_and_report_violations` and `report_infringement_bounty`.

Python strings are embedded as Lean `String` when they are only carried
around, and as `List Char` where the code computes on them (lower-casing,
substring membership, `str.split`).  External effects (RPC calls, receipts,
wall-clock time, the filesystem) are passed in explicitly as environment
arguments, so every definition is executable.
-/

namespace GithubProtectionAgent

/-! ### Python string primitives

`lowerChars` is Python `str.lower` (on the character list), `containsSub`
is Python's substring test `pat in hay`, and `pySplit` is Python's
`str.split(sep)` for a non-empty separator: split at each leftmost
non-overlapping occurrence of `sep`. -/

def lowerChars (s : String) : List Char := s.toList.map Char.toLower

def containsSub (hay pat : List Char) : Bool :=
  match hay with
  | [] => pat.isEmpty
  | _ :: rest => pat.isPrefixOf hay || containsSub rest pat

def pySplitAux (sep : List Char) : Nat → List Char → List (List Char)
  | _, [] => [[]]
  | 0, s => [s]  -- out of fuel; never reached when the fuel covers the length
  | fuel + 1, c :: rest =>
    if sep.isPrefixOf (c :: rest) ∧ sep ≠ [] then
      [] :: pySplitAux sep fuel (List.drop sep.length (c :: rest))
    else
      match pySplitAux sep fuel rest with
      | [] => [[c]]
      | part :: parts => (c :: part) :: parts

/-- Python `s.split(sep)`.  The fuel (one unit per character) only makes
the recursion structural: each step either consumes the separator or one
character, so `s.length` units always suffice. -/
def pySplit (sep s : List Char) : List (List Char) :=
  pySplitAux sep s.length s

/-! ### Nonce management state (`filecoin_contracts.py`)

`NonceState` holds the two instance attributes `_nonce_cache` and
`_last_nonce_update`.  Time stamps are integers (seconds). -/

structure NonceState where
  nonceCache : Option Nat
  lastNonceUpdate : Int
deriving DecidableEq, Repr

/-- `_get_nonce(force_refresh)` of `FilecoinContractInterface`.

The node queries `get_transaction_count(addr, 'pending')` and
`get_transaction_count(addr, 'latest')` are passed in as `pending` and
`latest` (`.error` = the call raised), and `now` is `time.time()`.
Returns the nonce together with the updated state, or `.error` when the
code would raise (both node queries raising). -/
def _get_nonce (forceRefresh : Bool) (now : Int)
    (pending latest : Except String Nat) (s : NonceState) :
    Except String (Nat × NonceState) :=
  if forceRefresh || s.nonceCache.isNone || (30 : Int) < now - s.lastNonceUpdate then
    match pending with
    | .ok n => .ok (n, ⟨some n, now⟩)
    | .error _ =>
      -- fallback to the latest block nonce; the refresh timestamp is NOT updated
      match latest with
      | .ok n => .ok (n, ⟨some n, s.lastNonceUpdate⟩)
      | .error e => .error e
  else
    match s.nonceCache with
    | some n => .ok (n, s)
    | none => .ok (0, s)  -- unreachable: the guard above catches an empty cache

/-- `_increment_nonce` of `FilecoinContractInterface`. -/
def _increment_nonce (s : NonceState) : NonceState :=
  match s.nonceCache with
  | some n => { s with nonceCache := some (n + 1) }
  | none => s

/-- The nonce-error test of `_send_transaction_with_retry`:
`'nonce too low' in error_msg.lower() or 'nonce' in error_msg.lower()`. -/
def isNonceError (msg : String) : Bool :=
  containsSub (lowerChars msg) ("nonce too low".toList) ||
  containsSub (lowerChars msg) ("nonce".toList)

/-- A mined transaction receipt (the fields the code reads). -/
structure Receipt where
  status : Nat
  txHash : String
  blockNumber : Nat
  gasUsed : Nat
deriving DecidableEq, Repr

/-- What one loop iteration's chain interaction does once the nonce is
known: either `wait_for_transaction_receipt` yields a receipt, or some
step (build / sign / send / wait) raises with a message. -/
inductive AttemptOutcome where
  | receipt (r : Receipt)
  | exn (msg : String)
deriving DecidableEq, Repr

/-- The environment one loop iteration of `_send_transaction_with_retry`
sees: the two nonce queries and, as a function of the nonce used, the
outcome of the submission. -/
structure Attempt where
  pending : Except String Nat
  latest : Except String Nat
  outcome : Nat → AttemptOutcome

/-- The dict returned by `_send_transaction_with_retry`:
`{'success': True, 'tx_hash': .., 'block_number': .., 'gas_used': .., 'receipt': ..}`
or `{'success': False, 'error': ..}`. -/
inductive TxResult where
  | success (txHash : String) (blockNumber gasUsed : Nat) (receipt : Receipt)
  | failure (error : String)
deriving DecidableEq, Repr

def TxResult.isSuccess : TxResult → Bool
  | .success _ _ _ _ => true
  | .failure _ => false

/-- Trace record of one executed loop iteration: the attempt index, the
nonce state on entry, the nonce obtained (`none` when `_get_nonce`
raised) and the attempt's outcome (the exception message when one was
raised, be it by `_get_nonce` or by the submission itself). -/
structure AttemptRec where
  idx : Nat
  stateBefore : NonceState
  nonce : Option Nat
  outcome : AttemptOutcome
deriving Repr

/-- Does the record carry a mined receipt with `status == 1`? -/
def hasStatusOne (rec : AttemptRec) : Bool :=
  match rec.outcome with
  | .receipt r => r.status == 1
  | .exn _ => false

/-- The `for attempt in range(max_retries)` loop of
`_send_transaction_with_retry`, with `fuel` iterations left.  Besides the
result dict and the final nonce state it returns the trace of executed
iterations. -/
def sendTxLoop (env : Nat → Attempt) (times : Nat → Int) (maxRetries : Nat) :
    Nat → Nat → NonceState → TxResult × NonceState × List AttemptRec
  | _, 0, s => (.failure "Max retries exceeded", s, [])
  | attempt, fuel + 1, s =>
    let a := env attempt
    -- force_refresh = attempt > 0
    match _get_nonce (decide (0 < attempt)) (times attempt) a.pending a.latest s with
    | .error msg =>
      -- the exception from `_get_nonce` lands in the `except` block
      if isNonceError msg then
        let next := sendTxLoop env times maxRetries (attempt + 1) fuel
          { s with nonceCache := none }
        (next.1, next.2.1, ⟨attempt, s, none, .exn msg⟩ :: next.2.2)
      else if attempt = maxRetries - 1 then
        (.failure msg, s, [⟨attempt, s, none, .exn msg⟩])
      else
        let next := sendTxLoop env times maxRetries (attempt + 1) fuel s
        (next.1, next.2.1, ⟨attempt, s, none, .exn msg⟩ :: next.2.2)
    | .ok (nonce, s1) =>
      match a.outcome nonce with
      | .receipt rcpt =>
        if rcpt.status = 1 then
          (.success rcpt.txHash rcpt.blockNumber rcpt.gasUsed rcpt,
            _increment_nonce s1, [⟨attempt, s, some nonce, .receipt rcpt⟩])
        else
          (.failure "Transaction failed (status 0)", s1,
            [⟨attempt, s, some nonce, .receipt rcpt⟩])
      | .exn msg =>
        if isNonceError msg then
          let next := sendTxLoop env times maxRetries (attempt + 1) fuel
            { s1 with nonceCache := none }
          (next.1, next.2.1, ⟨attempt, s, some nonce, .exn msg⟩ :: next.2.2)
        else if attempt = maxRetries - 1 then
          (.failure msg, s1, [⟨attempt, s, some nonce, .exn msg⟩])
        else
          let next := sendTxLoop env times maxRetries (attempt + 1) fuel s1
          (next.1, next.2.1, ⟨attempt, s, some nonce, .exn msg⟩ :: next.2.2)

/-- `_send_transaction_with_retry(transaction_builder, max_retries)`:
run the loop from attempt 0 with `max_retries` iterations available. -/
def _send_transaction_with_retry (env : Nat → Attempt) (times : Nat → Int)
    (maxRetries : Nat) (s : NonceState) :
    TxResult × NonceState × List AttemptRec :=
  sendTxLoop env times maxRetries 0 maxRetries s

/-! ### On-chain entry points (`filecoin_contracts.py`)

`register_repository_on_chain`, `add_link_to_registry` and
`file_dmca_on_chain` all first guard on a configured account, then build a
transaction and hand it to `_send_transaction_with_retry` (with the
default `max_retries = 3`).  The transaction contents (gas estimation,
contract call encoding) live inside the `Attempt` environment. -/

/-- The repository fields the registration reads. -/
structure RepoData where
  github_url : String
  repo_hash : String
  fingerprint : String
  key_features : String
  license_type : String
  ipfs_metadata : String
deriving DecidableEq, Repr

/-- External chain interactions of one entry-point call: the per-attempt
submission environment, the clock, and the `get_logs` query used by
`_extract_repo_id_from_logs`. -/
structure ChainEnv where
  attempts : Nat → Attempt
  times : Nat → Int
  logsCount : Except String Nat

/-- The result dict of an entry point (the keys the code writes). -/
structure CallOutcome where
  success : Bool
  error : Option String
  txHash : Option String
  repoId : Option Nat
deriving DecidableEq, Repr

/-- `{'success': False, 'error': 'No account configured for transactions'}` -/
def noAccountOutcome : CallOutcome :=
  { success := false
    error := some "No account configured for transactions"
    txHash := none
    repoId := none }

/-- `_extract_repo_id_from_logs`: `len(get_logs(..)) + 1`, or `1` when the
logs query raises. -/
def _extract_repo_id_from_logs (logsCount : Except String Nat) : Nat :=
  match logsCount with
  | .ok k => k + 1
  | .error _ => 1

/-- `register_repository_on_chain(repo_data)`. -/
def register_repository_on_chain (account : Option String) (repoData : RepoData)
    (env : ChainEnv) (s : NonceState) : CallOutcome × NonceState :=
  match account with
  | none => (noAccountOutcome, s)
  | some _ =>
    let step := _send_transaction_with_retry env.attempts env.times 3 s
    match step.1 with
    | .success h _ _ _ =>
      ({ success := true, error := none, txHash := some h,
         repoId := some (_extract_repo_id_from_logs env.logsCount) }, step.2.1)
    | .failure e =>
      ({ success := false, error := some e, txHash := none, repoId := none }, step.2.1)

/-- `add_link_to_registry(github_url, license_cid)`. -/
def add_link_to_registry (account : Option String) (githubUrl licenseCid : String)
    (env : ChainEnv) (s : NonceState) : CallOutcome × NonceState :=
  match account with
  | none => (noAccountOutcome, s)
  | some _ =>
    let step := _send_transaction_with_retry env.attempts env.times 3 s
    match step.1 with
    | .success h _ _ _ =>
      ({ success := true, error := none, txHash := some h, repoId := none }, step.2.1)
    | .failure e =>
      ({ success := false, error := some e, txHash := none, repoId := none }, step.2.1)

/-- `file_dmca_on_chain(infringing_url, dmca_cid)`. -/
def file_dmca_on_chain (account : Option String) (infringingUrl dmcaCid : String)
    (env : ChainEnv) (s : NonceState) : CallOutcome × NonceState :=
  match account with
  | none => (noAccountOutcome, s)
  | some _ =>
    let step := _send_transaction_with_retry env.attempts env.times 3 s
    match step.1 with
    | .success h _ _ _ =>
      ({ success := true, error := none, txHash := some h, repoId := none }, step.2.1)
    | .failure e =>
      ({ success := false, error := some e, txHash := none, repoId := none }, step.2.1)

/-! ### `blockchain_utilities.py` -/

/-- The dict built by `BlockchainUtils.estimate_total_cost`.  Wei amounts
are Python ints; the FIL conversions (`Web3.from_wei`) are exact decimal
values, embedded as rationals. -/
structure CostEstimate where
  gas_used : Nat
  gas_price_wei : Nat
  gas_price_gwei : ℚ
  total_cost_wei : Nat
  total_cost_fil : ℚ
  total_cost_tfil : ℚ
deriving DecidableEq, Repr

/-- `BlockchainUtils.estimate_total_cost(gas_used, gas_price)`. -/
def estimate_total_cost (gasUsed gasPrice : Nat) : CostEstimate :=
  let costWei := gasUsed * gasPrice
  { gas_used := gasUsed
    gas_price_wei := gasPrice
    gas_price_gwei := (gasPrice : ℚ) / 10 ^ 9
    total_cost_wei := costWei
    total_cost_fil := (costWei : ℚ) / 10 ^ 18
    total_cost_tfil := (costWei : ℚ) / 10 ^ 18 }

/-- The `for attempt in range(max_retries)` loop of
`BlockchainUtils.retry_transaction`, with `fuel` iterations left.
`results i` is what `func()` does on invocation `i` (`.error` = raised).
Returns the result (`.ok none` models Python's implicit `None` when the
loop body never runs, `.error e` the re-raised final exception) together
with the list of `time.sleep` delays performed between attempts. -/
def retryLoop {α : Type} (results : Nat → Except String α) (maxRetries : Nat)
    (delay : ℚ) : Nat → Nat → Except String (Option α) × List ℚ
  | _, 0 => (.ok none, [])
  | attempt, fuel + 1 =>
    match results attempt with
    | .ok v => (.ok (some v), [])
    | .error e =>
      if attempt = maxRetries - 1 then (.error e, [])
      else
        -- wait_time = delay * (2 ** attempt)
        let next := retryLoop results maxRetries delay (attempt + 1) fuel
        (next.1, delay * 2 ^ attempt :: next.2)

/-- `BlockchainUtils.retry_transaction(func, max_retries, delay)`. -/
def retry_transaction {α : Type} (results : Nat → Except String α)
    (maxRetries : Nat) (delay : ℚ) : Except String (Option α) × List ℚ :=
  retryLoop results maxRetries delay 0 maxRetries

/-! ### `IPFSUtils` (`blockchain_utilities.py`)

These functions compute on the characters of their argument, so Python
strings are embedded as `List Char` here. -/

/-- `IPFSUtils.validate_ipfs_hash(ipfs_hash)`. -/
def validate_ipfs_hash (h : List Char) : Bool :=
  if h.isEmpty then false  -- `if not ipfs_hash`
  else if ("Qm".toList).isPrefixOf h && h.length == 46 then true
  else if ['b'].isPrefixOf h && decide (50 ≤ h.length) then true
  else if ("local://".toList).isPrefixOf h then true
  else false

/-- `IPFSUtils.extract_cid_from_url(url)`. -/
def extract_cid_from_url (url : List Char) : Option (List Char) :=
  match pySplit ("/ipfs/".toList) url with
  | _ :: p1 :: _ =>
    -- cid = parts[1].split('/')[0]
    let cid := (pySplit ['/'] p1).headD []
    if validate_ipfs_hash cid then some cid else none
  | _ => none

/-- `IPFSUtils.generate_ipfs_urls(ipfs_hash)`. -/
def generate_ipfs_urls (h : List Char) : List (List Char) :=
  if ! validate_ipfs_hash h then []
  else if ("local://".toList).isPrefixOf h then [h]
  else
    [ "https://ipfs.io/ipfs/".toList ++ h,
      "https://gateway.pinata.cloud/ipfs/".toList ++ h,
      "https://cloudflare-ipfs.com/ipfs/".toList ++ h,
      "https://dweb.link/ipfs/".toList ++ h ]

/-! ### `enhanced_ipfs_manager.py` -/

inductive Service where
  | pinata
  | web3_storage
  | local_ipfs
  | local_file
deriving DecidableEq, Repr

/-- Python truthiness of an optional string config value (`None` and the
empty string are falsy). -/
def truthy : Option String → Bool
  | none => false
  | some s => ! s.isEmpty

/-- The constructor-read config values of `EnhancedIPFSManager`. -/
structure IPFSConfig where
  pinata_api_key : Option String
  pinata_api_secret : Option String
  web3_storage_token : Option String
deriving DecidableEq, Repr

/-- `EnhancedIPFSManager._determine_service_priority`. -/
def _determine_service_priority (c : IPFSConfig) : List Service :=
  let services : List Service := []
  let services :=
    if truthy c.pinata_api_key && truthy c.pinata_api_secret then
      services ++ [.pinata]
    else services
  let services :=
    if truthy c.web3_storage_token then services ++ [.web3_storage] else services
  -- always add local as fallback, then local_file as last resort
  let services := services ++ [.local_ipfs]
  services ++ [.local_file]

/-- The `for service in self.service_priority` loop of `upload_to_ipfs`:
return the first service result that does not raise, else raise
`'All IPFS upload methods failed'`.  `run s` is what the corresponding
`_upload_to_*` helper does (`.error` = raised). -/
def uploadLoop (run : Service → Except String String) :
    List Service → Except String String
  | [] => .error "All IPFS upload methods failed"
  | s :: rest =>
    match run s with
    | .ok cid => .ok cid
    | .error _ => uploadLoop run rest

/-- `EnhancedIPFSManager.upload_to_ipfs(file_path, metadata)`.  `fileEx`
is `os.path.exists(file_path)`. -/
def upload_to_ipfs (priority : List Service) (fileEx : Bool) (filePath : String)
    (run : Service → Except String String) : Except String String :=
  if ! fileEx then .error ("File not found: " ++ filePath)  -- FileNotFoundError
  else uploadLoop run priority

/-! ### Similarity-threshold decisions (`complete_filecoin_agent.py`,
`bounty_system.py`) -/

/-- One candidate repository in the scan loop, with the similarity score
`compare_repository_code` produced for it
(`comparison.get('similarity_score', 0)`). -/
structure SimilarRepo where
  url : String
  similarity_score : ℚ
deriving DecidableEq, Repr

/-- The inner loop of `scan_and_report_violations` for one registered
repository: skip the repository itself, and invoke
`_generate_and_file_dmca` exactly for candidates whose similarity score
exceeds the `0.7` threshold.  Returns the candidates for which a DMCA
notice is generated. -/
def scan_and_report_violations (ownUrl : String) :
    List SimilarRepo → List SimilarRepo
  | [] => []
  | r :: rest =>
    if r.url = ownUrl then scan_and_report_violations ownUrl rest
    else if (7 : ℚ) / 10 < r.similarity_score then
      r :: scan_and_report_violations ownUrl rest
    else scan_and_report_violations ownUrl rest

/-- The similarity gate of `report_infringement_bounty`. -/
inductive BountyDecision where
  | rejected (error : String)
  | proceeds
deriving DecidableEq, Repr

/-- `report_infringement_bounty`: claims with
`similarity_score < 0.7` are rejected with the `'Similarity too low'`
error; at or above the threshold the claim proceeds. -/
def report_infringement_bounty (similarityScore : ℚ) : BountyDecision :=
  if similarityScore < (7 : ℚ) / 10 then
    .rejected "Similarity too low for bounty claim"
  else .proceeds

/-- `BountySystem.validate_infringement`'s validity decision:
`similarity_score >= 0.7 and ai_validation['confidence'] > 0.8`. -/
def validate_infringement (similarityScore confidence : ℚ) : Bool :=
  decide ((7 : ℚ) / 10 ≤ similarityScore) && decide ((8 : ℚ) / 10 < confidence)

/-- The nonce `_get_nonce` would return (as data), `none` when it raises. -/
def nonceView (a : Attempt) (t : Int) (attempt : Nat) (s : NonceState) : Option Nat :=
  match _get_nonce (decide (0 < attempt)) t a.pending a.latest s with
  | .ok p => some p.1
  | .error _ => none

/-! ### Concrete environments used by the witnesses -/

/-- Every attempt mines a status-1 receipt; the node reports nonce 5. -/
def envOk : Nat → Attempt := fun _ =>
  { pending := .ok 5, latest := .ok 5,
    outcome := fun _ => .receipt ⟨1, "0xabc", 10, 21000⟩ }

/-- A later run against the same account: the node would report nonce 42,
and every attempt mines a status-1 receipt. -/
def envOk2 : Nat → Attempt := fun _ =>
  { pending := .ok 42, latest := .ok 42,
    outcome := fun _ => .receipt ⟨1, "0xdef", 11, 30000⟩ }

/-- Attempt 0 raises a nonce error; from attempt 1 on the submission
mines a status-1 receipt with the node reporting nonce 9. -/
def envNonceErr : Nat → Attempt := fun i =>
  if i = 0 then
    { pending := .ok 5, latest := .ok 5, outcome := fun _ => .exn "nonce too low" }
  else
    { pending := .ok 9, latest := .ok 9,
      outcome := fun _ => .receipt ⟨1, "0xdef", 11, 21000⟩ }

/-- A 51-character hash that `validate_ipfs_hash` accepts (starts with
`'b'`, length at least 50) but which contains a `'/'`. -/
def badHash : List Char :=
  ("b/0123456789012345678901234567890123456789012345678").toList

/-- A well-formed 46-character CID-like hash (starts with `Qm`, no
`'/'`). -/
def goodHash : List Char :=
  ("Qm01234567890123456789012345678901234567890123").toList

/-! ## Helper lemmas -/

/-- Whatever nonce `_get_nonce` hands back, the cache now holds exactly it. -/
theorem get_nonce_ok_cache {force : Bool} {now : Int} {p l : Except String Nat}
    {s : NonceState} {n : Nat} {s1 : NonceState}
    (h : _get_nonce force now p l s = .ok (n, s1)) : s1.nonceCache = some n := by
  unfold _get_nonce at h
  split at h
  · cases p with
    | ok v =>
      simp only [Except.ok.injEq, Prod.mk.injEq] at h
      rw [← h.2]
      simp [h.1]
    | error e =>
      cases l with
      | ok v =>
        simp only [Except.ok.injEq, Prod.mk.injEq] at h
        rw [← h.2]
        simp [h.1]
      | error e2 => simp at h
  · rename_i hcond
    cases hc : s.nonceCache with
    | none => simp [hc] at hcond
    | some v =>
      rw [hc] at h
      simp only [Except.ok.injEq, Prod.mk.injEq] at h
      rw [← h.2, hc, h.1]

/-- With an empty cache the nonce can only come from the node: from the
`'pending'` transaction count, or from the `'latest'` one when the
pending query raises. -/
theorem nonceView_cache_none {a : Attempt} {t : Int} {attempt : Nat}
    {s : NonceState} {n : Nat} (hs : s.nonceCache = none)
    (h : nonceView a t attempt s = some n) :
    a.pending = .ok n ∨ ((∃ e, a.pending = .error e) ∧ a.latest = .ok n) := by
  unfold nonceView _get_nonce at h
  rw [hs] at h
  simp only [Option.isNone_none, Bool.or_true, Bool.true_or, if_true] at h
  cases hp : a.pending with
  | ok v =>
    rw [hp] at h
    simp only [Option.some.injEq] at h
    exact Or.inl (by rw [h])
  | error e =>
    rw [hp] at h
    cases hl : a.latest with
    | ok v =>
      rw [hl] at h
      simp only [Option.some.injEq] at h
      exact Or.inr ⟨⟨e, rfl⟩, by rw [h]⟩
    | error e2 => rw [hl] at h; simp at h

/-- On a warm cache (no force, cached value, at most 30 seconds old)
`_get_nonce` serves the cache and leaves the state unchanged. -/
theorem get_nonce_cached {s : NonceState} {now : Int}
    {p l : Except String Nat} {n : Nat}
    (hc : s.nonceCache = some n) (ht : now - s.lastNonceUpdate ≤ 30) :
    _get_nonce false now p l s = .ok (n, s) := by
  unfold _get_nonce
  rw [hc]
  have hnt : ¬ (30 : Int) < now - s.lastNonceUpdate := not_lt.mpr ht
  simp [hnt]

/-! ## C3 -/

/-- C3: `_get_nonce` returns the cached nonce without querying the node
when no refresh is forced, the cache is non-empty and at most 30 seconds
old (the result does not depend on the node responses and the state is
unchanged); otherwise it fetches and caches the `'pending'` transaction
count, falling back to the `'latest'` count — without updating the
refresh timestamp — when the pending query raises. -/
theorem get_nonce_spec (s : NonceState) (now : Int)
    (pending latest : Except String Nat) (forceRefresh : Bool) :
    (∀ n, s.nonceCache = some n → now - s.lastNonceUpdate ≤ 30 →
      _get_nonce false now pending latest s = .ok (n, s)) ∧
    (forceRefresh = true ∨ s.nonceCache = none ∨ 30 < now - s.lastNonceUpdate →
      ((∀ v, pending = .ok v →
        _get_nonce forceRefresh now pending latest s = .ok (v, ⟨some v, now⟩)) ∧
      (∀ e v, pending = .error e → latest = .ok v →
        _get_nonce forceRefresh now pending latest s =
          .ok (v, ⟨some v, s.lastNonceUpdate⟩)))) := by
  constructor
  · intro n hc htime
    exact get_nonce_cached hc htime
  · intro hcond
    have hif : (forceRefresh || s.nonceCache.isNone ||
        decide ((30 : Int) < now - s.lastNonceUpdate)) = true := by
      rcases hcond with h | h | h
      · simp [h]
      · simp [h]
      · simp [h]
    constructor
    · intro v hv
      unfold _get_nonce
      rw [hv]
      simp only [hif, if_true]
    · intro e v he hv
      unfold _get_nonce
      rw [he, hv]
      simp only [hif, if_true]

/-- Witness for C3: a 10-second-old cached nonce is served from the cache;
a forced refresh takes the pending count and stamps the time. -/
theorem get_nonce_spec_witness :
    _get_nonce false 110 (.ok 9) (.ok 8) ⟨some 7, 100⟩ = .ok (7, ⟨some 7, 100⟩) ∧
    _get_nonce true 200 (.ok 9) (.ok 8) ⟨some 7, 100⟩ = .ok (9, ⟨some 9, 200⟩) := by
  constructor
  · exact (get_nonce_spec ⟨some 7, 100⟩ 110 (.ok 9) (.ok 8) false).1 7 rfl (by norm_num)
  · exact ((get_nonce_spec ⟨some 7, 100⟩ 200 (.ok 9) (.ok 8) true).2
      (Or.inl rfl)).1 9 rfl

/-! ## The retry-loop master lemma

One induction over the remaining iterations establishes every property
the claims about `_send_transaction_with_retry` need: length bound,
success characterization, status-0 short-circuit, the post-success cache
value, first-record/initial-state agreement, per-record nonce
provenance, and cache invalidation between a nonce-error attempt and its
successor. -/

theorem sendTxLoop_spec (env : Nat → Attempt) (times : Nat → Int) (maxR : Nat) :
    ∀ (fuel attempt : Nat) (s : NonceState),
    (sendTxLoop env times maxR attempt fuel s).2.2.length ≤ fuel ∧
    ((sendTxLoop env times maxR attempt fuel s).1.isSuccess = true ↔
      ∃ rec ∈ (sendTxLoop env times maxR attempt fuel s).2.2,
        hasStatusOne rec = true) ∧
    (∀ rec ∈ (sendTxLoop env times maxR attempt fuel s).2.2,
      ∀ r, rec.outcome = .receipt r → r.status ≠ 1 →
      (sendTxLoop env times maxR attempt fuel s).1 =
        .failure "Transaction failed (status 0)" ∧
      (sendTxLoop env times maxR attempt fuel s).2.2.getLast? = some rec) ∧
    (∀ h b g rc,
      (sendTxLoop env times maxR attempt fuel s).1 = .success h b g rc →
      ∃ rec n, (sendTxLoop env times maxR attempt fuel s).2.2.getLast? = some rec ∧
        rec.outcome = .receipt rc ∧ rc.status = 1 ∧ rec.nonce = some n ∧
        (sendTxLoop env times maxR attempt fuel s).2.1.nonceCache = some (n + 1) ∧
        h = rc.txHash ∧ b = rc.blockNumber ∧ g = rc.gasUsed) ∧
    (∀ rec, (sendTxLoop env times maxR attempt fuel s).2.2.head? = some rec →
      rec.stateBefore = s ∧ rec.idx = attempt) ∧
    (∀ rec ∈ (sendTxLoop env times maxR attempt fuel s).2.2,
      rec.nonce = nonceView (env rec.idx) (times rec.idx) rec.idx rec.stateBefore) ∧
    (∀ i rec1 rec2 msg,
      (sendTxLoop env times maxR attempt fuel s).2.2.get? i = some rec1 →
      (sendTxLoop env times maxR attempt fuel s).2.2.get? (i + 1) = some rec2 →
      rec1.outcome = .exn msg → isNonceError msg = true →
      rec2.stateBefore.nonceCache = none) := by
  intro fuel
  induction fuel with
  | zero =>
    intro a s
    simp [sendTxLoop, TxResult.isSuccess]
  | succ n ih =>
    intro a s
    cases hG : _get_nonce (decide (0 < a)) (times a) (env a).pending (env a).latest s with
    | error msg =>
      by_cases hN : isNonceError msg = true
      · -- nonce-related exception from the nonce fetch: invalidate and retry
        obtain ⟨ih1, ih2, ih3, ih4, ih5, ih6, ih7⟩ :=
          ih (a + 1) { s with nonceCache := none }
        simp only [sendTxLoop, hG]
        simp only [if_pos hN]
        refine ⟨?_, ?_, ?_, ?_, ?_, ?_, ?_⟩
        · simpa using Nat.succ_le_succ ih1
        · constructor
          · intro hs
            obtain ⟨rec, hm, hh⟩ := ih2.mp hs
            exact ⟨rec, List.mem_cons_of_mem _ hm, hh⟩
          · rintro ⟨rec, hm, hh⟩
            rcases List.mem_cons.mp hm with hm | hm
            · rw [hm] at hh; simp [hasStatusOne] at hh
            · exact ih2.mpr ⟨rec, hm, hh⟩
        · intro rec hm r hout hst
          rcases List.mem_cons.mp hm with hm | hm
          · rw [hm] at hout; simp at hout
          · obtain ⟨hres, hlast⟩ := ih3 rec hm r hout hst
            cases htr : (sendTxLoop env times maxR (a + 1) n
                { s with nonceCache := none }).2.2 with
            | nil => rw [htr] at hm; simp at hm
            | cons x xs =>
              rw [htr] at hlast
              exact ⟨hres, by simp only [List.getLast?_cons_cons, htr, hlast]⟩
        · intro h b g rc hres
          obtain ⟨rec, nn, hlast, hout, hst, hnn, hcache, hh, hb, hg⟩ :=
            ih4 h b g rc hres
          refine ⟨rec, nn, ?_, hout, hst, hnn, hcache, hh, hb, hg⟩
          cases htr : (sendTxLoop env times maxR (a + 1) n
              { s with nonceCache := none }).2.2 with
          | nil => rw [htr] at hlast; simp at hlast
          | cons x xs =>
            rw [htr] at hlast
            simp only [List.getLast?_cons_cons, htr, hlast]
        · intro rec hh
          simp only [List.head?_cons, Option.some.injEq] at hh
          rw [← hh]; exact ⟨rfl, rfl⟩
        · intro rec hm
          rcases List.mem_cons.mp hm with hm | hm
          · rw [hm]; simp [nonceView, hG]
          · exact ih6 rec hm
        · intro i rec1 rec2 msg' h1 h2 hex hne
          cases i with
          | zero =>
            simp only [List.get?_cons_zero, Option.some.injEq] at h1
            have h2' : (sendTxLoop env times maxR (a + 1) n
                { s with nonceCache := none }).2.2.head? = some rec2 := by
              rw [← List.get?_zero]
              simpa using h2
            have := (ih5 rec2 h2').1
            rw [this]
          | succ j =>
            exact ih7 j rec1 rec2 msg' (by simpa using h1) (by simpa using h2) hex hne
      · by_cases hL : a = maxR - 1
        · -- non-nonce exception on the final attempt: report it
          simp only [sendTxLoop, hG]
          simp only [if_neg hN, if_pos hL]
          refine ⟨?_, ?_, ?_, ?_, ?_, ?_, ?_⟩
          · simp
          · simp [TxResult.isSuccess, hasStatusOne]
          · intro rec hm r hout hst
            rcases List.mem_cons.mp hm with hm | hm
            · rw [hm] at hout; simp at hout
            · simp at hm
          · intro h b g rc hres; simp at hres
          · intro rec hh
            simp only [List.head?_cons, Option.some.injEq] at hh
            rw [← hh]; exact ⟨rfl, rfl⟩
          · intro rec hm
            rcases List.mem_cons.mp hm with hm | hm
            · rw [hm]; simp [nonceView, hG]
            · simp at hm
          · intro i rec1 rec2 msg' h1 h2 hex hne
            cases i with
            | zero => simp at h2
            | succ j => simp at h1
        · -- non-nonce exception, later attempts remain: plain retry
          obtain ⟨ih1, ih2, ih3, ih4, ih5, ih6, ih7⟩ := ih (a + 1) s
          simp only [sendTxLoop, hG]
          simp only [if_neg hN, if_neg hL]
          refine ⟨?_, ?_, ?_, ?_, ?_, ?_, ?_⟩
          · simpa using Nat.succ_le_succ ih1
          · constructor
            · intro hs
              obtain ⟨rec, hm, hh⟩ := ih2.mp hs
              exact ⟨rec, List.mem_cons_of_mem _ hm, hh⟩
            · rintro ⟨rec, hm, hh⟩
              rcases List.mem_cons.mp hm with hm | hm
              · rw [hm] at hh; simp [hasStatusOne] at hh
              · exact ih2.mpr ⟨rec, hm, hh⟩
          · intro rec hm r hout hst
            rcases List.mem_cons.mp hm with hm | hm
            · rw [hm] at hout; simp at hout
            · obtain ⟨hres, hlast⟩ := ih3 rec hm r hout hst
              cases htr : (sendTxLoop env times maxR (a + 1) n s).2.2 with
              | nil => rw [htr] at hm; simp at hm
              | cons x xs =>
                rw [htr] at hlast
                exact ⟨hres, by simp only [List.getLast?_cons_cons, htr, hlast]⟩
          · intro h b g rc hres
            obtain ⟨rec, nn, hlast, hout, hst, hnn, hcache, hh, hb, hg⟩ :=
              ih4 h b g rc hres
            refine ⟨rec, nn, ?_, hout, hst, hnn, hcache, hh, hb, hg⟩
            cases htr : (sendTxLoop env times maxR (a + 1) n s).2.2 with
            | nil => rw [htr] at hlast; simp at hlast
            | cons x xs =>
              rw [htr] at hlast
              simp only [List.getLast?_cons_cons, htr, hlast]
          · intro rec hh
            simp only [List.head?_cons, Option.some.injEq] at hh
            rw [← hh]; exact ⟨rfl, rfl⟩
          · intro rec hm
            rcases List.mem_cons.mp hm with hm | hm
            · rw [hm]; simp [nonceView, hG]
            · exact ih6 rec hm
          · intro i rec1 rec2 msg' h1 h2 hex hne
            cases i with
            | zero =>
              simp only [List.get?_cons_zero, Option.some.injEq] at h1
              rw [← h1] at hex
              simp only [AttemptRec.outcome] at hex
              cases hex
              exact absurd hne hN
            | succ j =>
              exact ih7 j rec1 rec2 msg' (by simpa using h1) (by simpa using h2)
                hex hne
    | ok p =>
      obtain ⟨nonce, s1⟩ := p
      cases hO : (env a).outcome nonce with
      | receipt rcpt =>
        by_cases hst : rcpt.status = 1
        · -- mined with status 1: report success and bump the cache
          simp only [sendTxLoop, hG, hO, hst, if_true]
          refine ⟨?_, ?_, ?_, ?_, ?_, ?_, ?_⟩
          · simp
          · simp only [TxResult.isSuccess, true_iff]
            exact ⟨⟨a, s, some nonce, .receipt rcpt⟩, List.mem_singleton_self _,
              by simp [hasStatusOne, hst]⟩
          · intro rec hm r hout hst'
            rcases List.mem_cons.mp hm with hm | hm
            · rw [hm] at hout
              simp only [AttemptRec.outcome, AttemptOutcome.receipt.injEq] at hout
              rw [← hout] at hst'
              exact absurd hst hst'
            · simp at hm
          · intro h b g rc hres
            simp only [TxResult.success.injEq] at hres
            obtain ⟨hh, hb, hg, hrc⟩ := hres
            subst hh; subst hb; subst hg; subst hrc
            refine ⟨⟨a, s, some nonce, .receipt rcpt⟩, nonce, by simp, rfl, hst,
              rfl, ?_, rfl, rfl, rfl⟩
            have hc1 : s1.nonceCache = some nonce := get_nonce_ok_cache hG
            simp [_increment_nonce, hc1]
          · intro rec hh
            simp only [List.head?_cons, Option.some.injEq] at hh
            rw [← hh]; exact ⟨rfl, rfl⟩
          · intro rec hm
            rcases List.mem_cons.mp hm with hm | hm
            · rw [hm]; simp [nonceView, hG]
            · simp at hm
          · intro i rec1 rec2 msg' h1 h2 hex hne
            cases i with
            | zero => simp at h2
            | succ j => simp at h1
        · -- mined with status != 1: immediate failure, no retry
          simp only [sendTxLoop, hG, hO, hst, if_false]
          refine ⟨?_, ?_, ?_, ?_, ?_, ?_, ?_⟩
          · simp
          · constructor
            · intro hs; simp [TxResult.isSuccess] at hs
            · rintro ⟨rec, hm, hh⟩
              rcases List.mem_cons.mp hm with hm | hm
              · rw [hm] at hh
                simp only [hasStatusOne, beq_iff_eq] at hh
                exact absurd hh hst
              · simp at hm
          · intro rec hm r hout hst'
            rcases List.mem_cons.mp hm with hm | hm
            · rw [hm]; simp
            · simp at hm
          · intro h b g rc hres; simp at hres
          · intro rec hh
            simp only [List.head?_cons, Option.some.injEq] at hh
            rw [← hh]; exact ⟨rfl, rfl⟩
          · intro rec hm
            rcases List.mem_cons.mp hm with hm | hm
            · rw [hm]; simp [nonceView, hG]
            · simp at hm
          · intro i rec1 rec2 msg' h1 h2 hex hne
            cases i with
            | zero => simp at h2
            | succ j => simp at h1
      | exn msg =>
        by_cases hN : isNonceError msg = true
        · -- nonce-related submission failure: invalidate and retry
          obtain ⟨ih1, ih2, ih3, ih4, ih5, ih6, ih7⟩ :=
            ih (a + 1) { s1 with nonceCache := none }
          simp only [sendTxLoop, hG, hO]
          simp only [if_pos hN]
          refine ⟨?_, ?_, ?_, ?_, ?_, ?_, ?_⟩
          · simpa using Nat.succ_le_succ ih1
          · constructor
            · intro hs
              obtain ⟨rec, hm, hh⟩ := ih2.mp hs
              exact ⟨rec, List.mem_cons_of_mem _ hm, hh⟩
            · rintro ⟨rec, hm, hh⟩
              rcases List.mem_cons.mp hm with hm | hm
              · rw [hm] at hh; simp [hasStatusOne] at hh
              · exact ih2.mpr ⟨rec, hm, hh⟩
          · intro rec hm r hout hst
            rcases List.mem_cons.mp hm with hm | hm
            · rw [hm] at hout; simp at hout
            · obtain ⟨hres, hlast⟩ := ih3 rec hm r hout hst
              cases htr : (sendTxLoop env times maxR (a + 1) n
                  { s1 with nonceCache := none }).2.2 with
              | nil => rw [htr] at hm; simp at hm
              | cons x xs =>
                rw [htr] at hlast
                exact ⟨hres, by simp only [List.getLast?_cons_cons, htr, hlast]⟩
          · intro h b g rc hres
            obtain ⟨rec, nn, hlast, hout, hst, hnn, hcache, hh, hb, hg⟩ :=
              ih4 h b g rc hres
            refine ⟨rec, nn, ?_, hout, hst, hnn, hcache, hh, hb, hg⟩
            cases htr : (sendTxLoop env times maxR (a + 1) n
                { s1 with nonceCache := none }).2.2 with
            | nil => rw [htr] at hlast; simp at hlast
            | cons x xs =>
              rw [htr] at hlast
              simp only [List.getLast?_cons_cons, htr, hlast]
          · intro rec hh
            simp only [List.head?_cons, Option.some.injEq] at hh
            rw [← hh]; exact ⟨rfl, rfl⟩
          · intro rec hm
            rcases List.mem_cons.mp hm with hm | hm
            · rw [hm]; simp [nonceView, hG]
            · exact ih6 rec hm
          · intro i rec1 rec2 msg' h1 h2 hex hne
            cases i with
            | zero =>
              have h2' : (sendTxLoop env times maxR (a + 1) n
                  { s1 with nonceCache := none }).2.2.head? = some rec2 := by
                rw [← List.get?_zero]
                simpa using h2
              have := (ih5 rec2 h2').1
              rw [this]
            | succ j =>
              exact ih7 j rec1 rec2 msg' (by simpa using h1) (by simpa using h2)
                hex hne
        · by_cases hL : a = maxR - 1
          · -- non-nonce submission failure on the final attempt
            simp only [sendTxLoop, hG, hO]
            simp only [if_neg hN, if_pos hL]
            refine ⟨?_, ?_, ?_, ?_, ?_, ?_, ?_⟩
            · simp
            · simp [TxResult.isSuccess, hasStatusOne]
            · intro rec hm r hout hst
              rcases List.mem_cons.mp hm with hm | hm
              · rw [hm] at hout; simp at hout
              · simp at hm
            · intro h b g rc hres; simp at hres
            · intro rec hh
              simp only [List.head?_cons, Option.some.injEq] at hh
              rw [← hh]; exact ⟨rfl, rfl⟩
            · intro rec hm
              rcases List.mem_cons.mp hm with hm | hm
              · rw [hm]; simp [nonceView, hG]
              · simp at hm
            · intro i rec1 rec2 msg' h1 h2 hex hne
              cases i with
              | zero => simp at h2
              | succ j => simp at h1
          · -- non-nonce submission failure, later attempts remain
            obtain ⟨ih1, ih2, ih3, ih4, ih5, ih6, ih7⟩ := ih (a + 1) s1
            simp only [sendTxLoop, hG, hO]
            simp only [if_neg hN, if_neg hL]
            refine ⟨?_, ?_, ?_, ?_, ?_, ?_, ?_⟩
            · simpa using Nat.succ_le_succ ih1
            · constructor
              · intro hs
                obtain ⟨rec, hm, hh⟩ := ih2.mp hs
                exact ⟨rec, List.mem_cons_of_mem _ hm, hh⟩
              · rintro ⟨rec, hm, hh⟩
                rcases List.mem_cons.mp hm with hm | hm
                · rw [hm] at hh; simp [hasStatusOne] at hh
                · exact ih2.mpr ⟨rec, hm, hh⟩
            · intro rec hm r hout hst
              rcases List.mem_cons.mp hm with hm | hm
              · rw [hm] at hout; simp at hout
              · obtain ⟨hres, hlast⟩ := ih3 rec hm r hout hst
                cases htr : (sendTxLoop env times maxR (a + 1) n s1).2.2 with
                | nil => rw [htr] at hm; simp at hm
                | cons x xs =>
                  rw [htr] at hlast
                  exact ⟨hres, by simp only [List.getLast?_cons_cons, htr, hlast]⟩
            · intro h b g rc hres
              obtain ⟨rec, nn, hlast, hout, hst, hnn, hcache, hh, hb, hg⟩ :=
                ih4 h b g rc hres
              refine ⟨rec, nn, ?_, hout, hst, hnn, hcache, hh, hb, hg⟩
              cases htr : (sendTxLoop env times maxR (a + 1) n s1).2.2 with
              | nil => rw [htr] at hlast; simp at hlast
              | cons x xs =>
                rw [htr] at hlast
                simp only [List.getLast?_cons_cons, htr, hlast]
            · intro rec hh
              simp only [List.head?_cons, Option.some.injEq] at hh
              rw [← hh]; exact ⟨rfl, rfl⟩
            · intro rec hm
              rcases List.mem_cons.mp hm with hm | hm
              · rw [hm]; simp [nonceView, hG]
              · exact ih6 rec hm
            · intro i rec1 rec2 msg' h1 h2 hex hne
              cases i with
              | zero =>
                simp only [List.get?_cons_zero, Option.some.injEq] at h1
                rw [← h1] at hex
                simp only [AttemptRec.outcome] at hex
                cases hex
                exact absurd hne hN
              | succ j =>
                exact ih7 j rec1 rec2 msg' (by simpa using h1) (by simpa using h2)
                  hex hne

/-- `nonceView` on a warm cache: no force, non-empty cache, at most 30
seconds old — the cached value is served. -/
theorem nonceView_cache_hit {a : Attempt} {t : Int} {s : NonceState} {n : Nat}
    (hc : s.nonceCache = some n) (ht : t - s.lastNonceUpdate ≤ 30) :
    nonceView a t 0 s = some n := by
  unfold nonceView
  have hdec : (decide (0 < 0)) = false := rfl
  rw [hdec, get_nonce_cached hc ht]

/-! ## C1 -/

/-- C1: `_send_transaction_with_retry` makes at most `max_retries`
submission attempts; it reports success exactly when some executed
attempt yields a mined receipt with status 1; an attempt whose receipt
has status 0 makes it return the `'Transaction failed (status 0)'`
failure immediately (that attempt is the last one executed); and when no
attempt mines a status-1 receipt it returns a failure dict rather than
raising. -/
theorem send_transaction_with_retry_spec (env : Nat → Attempt)
    (times : Nat → Int) (maxRetries : Nat) (s : NonceState) (res : TxResult)
    (s' : NonceState) (tr : List AttemptRec)
    (hrun : _send_transaction_with_retry env times maxRetries s = (res, s', tr)) :
    tr.length ≤ maxRetries ∧
    (res.isSuccess = true ↔ ∃ rec ∈ tr, hasStatusOne rec = true) ∧
    (∀ rec ∈ tr, ∀ r, rec.outcome = .receipt r → r.status = 0 →
      res = .failure "Transaction failed (status 0)" ∧ tr.getLast? = some rec) ∧
    ((¬ ∃ rec ∈ tr, hasStatusOne rec = true) → ∃ msg, res = .failure msg) := by
  obtain ⟨h1, h2, h3, h4, h5, h6, h7⟩ :=
    sendTxLoop_spec env times maxRetries maxRetries 0 s
  unfold _send_transaction_with_retry at hrun
  simp only [hrun] at h1 h2 h3
  refine ⟨h1, h2, ?_, ?_⟩
  · intro rec hm r hout hst
    exact h3 rec hm r hout (by rw [hst]; exact Nat.zero_ne_one)
  · intro hno
    cases hres : res with
    | success h b g rc =>
      rw [hres] at h2
      exact absurd (h2.mp rfl) hno
    | failure msg => exact ⟨msg, rfl⟩

/-- Witness for C1, applying the theorem to a run in which attempt 0
mines a status-1 receipt. -/
theorem send_transaction_with_retry_spec_witness :
    ((_send_transaction_with_retry envOk (fun _ => 100) 3 ⟨none, 0⟩).2.2).length ≤ 3 ∧
    (_send_transaction_with_retry envOk (fun _ => 100) 3 ⟨none, 0⟩).1.isSuccess = true := by
  have h := send_transaction_with_retry_spec envOk (fun _ => 100) 3 ⟨none, 0⟩
    (_send_transaction_with_retry envOk (fun _ => 100) 3 ⟨none, 0⟩).1
    (_send_transaction_with_retry envOk (fun _ => 100) 3 ⟨none, 0⟩).2.1
    (_send_transaction_with_retry envOk (fun _ => 100) 3 ⟨none, 0⟩).2.2 rfl
  refine ⟨h.1, ?_⟩
  refine h.2.1.mpr ⟨⟨0, ⟨none, 0⟩, some 5, .receipt ⟨1, "0xabc", 10, 21000⟩⟩, ?_, rfl⟩
  show _ ∈ (_send_transaction_with_retry envOk (fun _ => 100) 3 ⟨none, 0⟩).2.2
  rw [show (_send_transaction_with_retry envOk (fun _ => 100) 3 ⟨none, 0⟩).2.2 =
    [⟨0, ⟨none, 0⟩, some 5, .receipt ⟨1, "0xabc", 10, 21000⟩⟩] from rfl]
  exact List.mem_singleton_self _

/-! ## C2 -/

/-- C2: when an attempt raises an exception whose message contains
`'nonce'` (case-insensitively) and a further attempt follows, the cached
nonce is `None` on entry to that next attempt, so its nonce is re-fetched
from the node: it equals the `'pending'` transaction count, or the
`'latest'` one when the pending query raises. -/
theorem nonce_error_invalidates_cache (env : Nat → Attempt) (times : Nat → Int)
    (maxRetries : Nat) (s : NonceState) (res : TxResult) (s' : NonceState)
    (tr : List AttemptRec)
    (hrun : _send_transaction_with_retry env times maxRetries s = (res, s', tr))
    (i : Nat) (rec1 rec2 : AttemptRec) (msg : String)
    (h1 : tr.get? i = some rec1) (h2 : tr.get? (i + 1) = some rec2)
    (hex : rec1.outcome = .exn msg) (hne : isNonceError msg = true) :
    rec2.stateBefore.nonceCache = none ∧
    (∀ n, rec2.nonce = some n →
      (env rec2.idx).pending = .ok n ∨
      ((∃ e, (env rec2.idx).pending = .error e) ∧ (env rec2.idx).latest = .ok n)) := by
  obtain ⟨-, -, -, -, -, h6, h7⟩ :=
    sendTxLoop_spec env times maxRetries maxRetries 0 s
  unfold _send_transaction_with_retry at hrun
  simp only [hrun] at h6 h7
  have hnone := h7 i rec1 rec2 msg h1 h2 hex hne
  refine ⟨hnone, ?_⟩
  intro n hn
  have hmem : rec2 ∈ tr := List.get?_mem h2
  have hview := h6 rec2 hmem
  rw [hn] at hview
  exact nonceView_cache_none hnone hview.symm

/-- Witness for C2: attempt 0 raises `'nonce too low'`; attempt 1 runs
with an emptied cache and its nonce comes from the pending query. -/
theorem nonce_error_invalidates_cache_witness :
    ((_send_transaction_with_retry envNonceErr (fun _ => 100) 3
        ⟨none, 0⟩).2.2.get? 1).isSome = true ∧
    (∀ rec2, (_send_transaction_with_retry envNonceErr (fun _ => 100) 3
        ⟨none, 0⟩).2.2.get? 1 = some rec2 →
      rec2.stateBefore.nonceCache = none) := by
  refine ⟨rfl, ?_⟩
  intro rec2 h2
  exact (nonce_error_invalidates_cache envNonceErr (fun _ => 100) 3 ⟨none, 0⟩
    (_send_transaction_with_retry envNonceErr (fun _ => 100) 3 ⟨none, 0⟩).1
    (_send_transaction_with_retry envNonceErr (fun _ => 100) 3 ⟨none, 0⟩).2.1
    (_send_transaction_with_retry envNonceErr (fun _ => 100) 3 ⟨none, 0⟩).2.2 rfl
    0 ⟨0, ⟨none, 0⟩, some 5, .exn "nonce too low"⟩ rec2 "nonce too low"
    rfl h2 rfl (by decide)).1

/-! ## C4 -/

/-- C4: after a successful submission the cached nonce is the nonce used
plus one, and a second submission started on the warm cache (first
attempt, hence no forced refresh, within the 30-second window) uses
exactly the consecutive nonce — strictly increasing by one. -/
theorem successful_sends_use_consecutive_nonces
    (env1 env2 : Nat → Attempt) (times1 times2 : Nat → Int)
    (maxR1 maxR2 : Nat) (s0 : NonceState)
    (res1 : TxResult) (s1 : NonceState) (tr1 : List AttemptRec)
    (hrun1 : _send_transaction_with_retry env1 times1 maxR1 s0 = (res1, s1, tr1))
    (hsucc : res1.isSuccess = true)
    (rec1 : AttemptRec) (n1 : Nat)
    (hlast : tr1.getLast? = some rec1) (hn1 : rec1.nonce = some n1)
    (res2 : TxResult) (s2 : NonceState) (tr2 : List AttemptRec)
    (hrun2 : _send_transaction_with_retry env2 times2 maxR2 s1 = (res2, s2, tr2))
    (rec2 : AttemptRec) (hhead : tr2.head? = some rec2)
    (hwarm : times2 0 - s1.lastNonceUpdate ≤ 30)
    (n2 : Nat) (hn2 : rec2.nonce = some n2) :
    s1.nonceCache = some (n1 + 1) ∧ n2 = n1 + 1 ∧ n1 < n2 := by
  obtain ⟨-, -, -, h4, -, -, -⟩ :=
    sendTxLoop_spec env1 times1 maxR1 maxR1 0 s0
  unfold _send_transaction_with_retry at hrun1 hrun2
  simp only [hrun1] at h4
  obtain ⟨h, b, g, rc, hres1⟩ : ∃ h b g rc, res1 = .success h b g rc := by
    cases res1 with
    | success h b g rc => exact ⟨h, b, g, rc, rfl⟩
    | failure e => simp [TxResult.isSuccess] at hsucc
  obtain ⟨rec, nn, hlast', -, -, hnn, hcache, -, -, -⟩ := h4 h b g rc hres1
  rw [hlast] at hlast'
  have hrec : rec = rec1 := by injection hlast'.symm
  rw [hrec, hn1] at hnn
  have heqn : n1 = nn := by injection hnn
  rw [← heqn] at hcache
  obtain ⟨-, -, -, -, h5', h6', -⟩ :=
    sendTxLoop_spec env2 times2 maxR2 maxR2 0 s1
  simp only [hrun2] at h5' h6'
  obtain ⟨hsb, hidx⟩ := h5' rec2 hhead
  have hmem : rec2 ∈ tr2 := by
    cases tr2 with
    | nil => simp at hhead
    | cons x xs =>
      simp only [List.head?_cons, Option.some.injEq] at hhead
      rw [← hhead]; exact List.mem_cons_self _ _
  have hview := h6' rec2 hmem
  rw [hidx, hsb] at hview
  rw [nonceView_cache_hit hcache hwarm] at hview
  rw [hview] at hn2
  have heq2 : n1 + 1 = n2 := by injection hn2
  exact ⟨hcache, heq2.symm, by omega⟩

/-- Witness for C4: a successful run from a cold cache uses nonce 5 and
leaves 6 cached; a second run 20 seconds later (within the window) uses
nonce 6 on its first attempt. -/
theorem successful_sends_use_consecutive_nonces_witness :
    (⟨some 6, 100⟩ : NonceState).nonceCache = some (5 + 1) ∧
    (6 : Nat) = 5 + 1 ∧ (5 : Nat) < 6 := by
  exact successful_sends_use_consecutive_nonces envOk envOk2
    (fun _ => 100) (fun _ => 120) 3 3 ⟨none, 0⟩
    (.success "0xabc" 10 21000 ⟨1, "0xabc", 10, 21000⟩) ⟨some 6, 100⟩
    [⟨0, ⟨none, 0⟩, some 5, .receipt ⟨1, "0xabc", 10, 21000⟩⟩] rfl rfl
    ⟨0, ⟨none, 0⟩, some 5, .receipt ⟨1, "0xabc", 10, 21000⟩⟩ 5 rfl rfl
    (.success "0xdef" 11 30000 ⟨1, "0xdef", 11, 30000⟩) ⟨some 7, 100⟩
    [⟨0, ⟨some 6, 100⟩, some 6, .receipt ⟨1, "0xdef", 11, 30000⟩⟩] rfl
    ⟨0, ⟨some 6, 100⟩, some 6, .receipt ⟨1, "0xdef", 11, 30000⟩⟩ rfl
    (by norm_num) 6 rfl

/-! ## C8 -/

/-- C8: `estimate_total_cost` reports `total_cost_wei` as the exact
product `gas_used * gas_price`, and values tFIL identically to FIL. -/
theorem estimate_total_cost_spec (gasUsed gasPrice : Nat) :
    (estimate_total_cost gasUsed gasPrice).total_cost_wei = gasUsed * gasPrice ∧
    (estimate_total_cost gasUsed gasPrice).total_cost_tfil =
      (estimate_total_cost gasUsed gasPrice).total_cost_fil :=
  ⟨rfl, rfl⟩

/-! ## C10 -/

/-- C10: with no account configured, each of the three on-chain entry
points returns the `'No account configured for transactions'` failure
dict with the nonce state untouched, for every possible chain
environment (so nothing is built, signed or sent). -/
theorem no_account_is_read_only (repoData : RepoData) (u1 c1 u2 c2 : String)
    (env : ChainEnv) (s : NonceState) :
    register_repository_on_chain none repoData env s = (noAccountOutcome, s) ∧
    add_link_to_registry none u1 c1 env s = (noAccountOutcome, s) ∧
    file_dmca_on_chain none u2 c2 env s = (noAccountOutcome, s) ∧
    noAccountOutcome.success = false ∧
    noAccountOutcome.error = some "No account configured for transactions" :=
  ⟨rfl, rfl, rfl, rfl, rfl⟩

/-! ## C7 -/

/-- C7: in the violation scan a DMCA notice is generated for a compared
repository iff it is not the repository itself and its similarity score
strictly exceeds 0.7; in `report_infringement_bounty` a claim is
rejected with the `'Similarity too low'` error iff the score is below
0.7, and proceeds iff it is at or above 0.7. -/
theorem similarity_threshold_spec (ownUrl : String) (sims : List SimilarRepo)
    (score : ℚ) :
    (∀ r, r ∈ scan_and_report_violations ownUrl sims ↔
      (r ∈ sims ∧ r.url ≠ ownUrl ∧ (7 : ℚ) / 10 < r.similarity_score)) ∧
    ((∃ e, report_infringement_bounty score = .rejected e) ↔
      score < (7 : ℚ) / 10) ∧
    (report_infringement_bounty score = .proceeds ↔ (7 : ℚ) / 10 ≤ score) := by
  refine ⟨?_, ?_, ?_⟩
  · intro r
    induction sims with
    | nil => simp [scan_and_report_violations]
    | cons a rest ih =>
      simp only [scan_and_report_violations]
      by_cases h1 : a.url = ownUrl
      · rw [if_pos h1, ih]
        constructor
        · rintro ⟨hm, hu, hs⟩; exact ⟨List.mem_cons_of_mem _ hm, hu, hs⟩
        · rintro ⟨hm, hu, hs⟩
          rcases List.mem_cons.mp hm with rfl | hm
          · exact absurd h1 hu
          · exact ⟨hm, hu, hs⟩
      · rw [if_neg h1]
        by_cases h2 : (7 : ℚ) / 10 < a.similarity_score
        · rw [if_pos h2]
          constructor
          · intro hm
            rcases List.mem_cons.mp hm with rfl | hm
            · exact ⟨List.mem_cons_self _ _, h1, h2⟩
            · obtain ⟨hm', hu, hs⟩ := ih.mp hm
              exact ⟨List.mem_cons_of_mem _ hm', hu, hs⟩
          · rintro ⟨hm, hu, hs⟩
            rcases List.mem_cons.mp hm with rfl | hm
            · exact List.mem_cons_self _ _
            · exact List.mem_cons_of_mem _ (ih.mpr ⟨hm, hu, hs⟩)
        · rw [if_neg h2, ih]
          constructor
          · rintro ⟨hm, hu, hs⟩; exact ⟨List.mem_cons_of_mem _ hm, hu, hs⟩
          · rintro ⟨hm, hu, hs⟩
            rcases List.mem_cons.mp hm with rfl | hm
            · exact absurd hs h2
            · exact ⟨hm, hu, hs⟩
  · unfold report_infringement_bounty
    by_cases h : score < (7 : ℚ) / 10
    · rw [if_pos h]
      exact ⟨fun _ => h, fun _ => ⟨_, rfl⟩⟩
    · rw [if_neg h]
      constructor
      · rintro ⟨e, he⟩; exact BountyDecision.noConfusion he
      · intro hc; exact absurd hc h
  · unfold report_infringement_bounty
    by_cases h : score < (7 : ℚ) / 10
    · rw [if_pos h]
      constructor
      · intro he; exact BountyDecision.noConfusion he
      · intro hge; exact absurd h (not_lt.mpr hge)
    · rw [if_neg h]
      exact ⟨fun _ => not_lt.mp h, fun _ => rfl⟩

/-! ## C6 -/

/-- C6 counterexample: with the default three retries and `delay = 2.0`,
a function that always raises waits 2 seconds after the first attempt
but 4 seconds after the second — the delay between consecutive attempts
is not a fixed, attempt-independent value. -/
theorem retry_transaction_fixed_delay_counterexample :
    (retry_transaction (fun _ => (.error "boom" : Except String Nat)) 3 2).2 =
      [2, 4] ∧ (2 : ℚ) ≠ 4 := by
  have e : retry_transaction (fun _ => (.error "boom" : Except String Nat)) 3 2 =
      (.error "boom", [2 * 2 ^ 0, 2 * 2 ^ 1]) := rfl
  constructor
  · rw [e]
    norm_num
  · norm_num

/-- `retryLoop` only looks at `results` on the window of remaining
attempt indices. -/
theorem retryLoop_congr {α : Type} (results results2 : Nat → Except String α)
    (maxRetries : Nat) (delay : ℚ) :
    ∀ (fuel attempt : Nat),
    (∀ j, attempt ≤ j → j < attempt + fuel → results j = results2 j) →
    retryLoop results maxRetries delay attempt fuel =
      retryLoop results2 maxRetries delay attempt fuel := by
  intro fuel
  induction fuel with
  | zero => intro a _; rfl
  | succ n ih =>
    intro a hagree
    have ha : results a = results2 a := hagree a le_rfl (by omega)
    cases hc : results2 a with
    | ok v => simp only [retryLoop, ha, hc]
    | error e =>
      simp only [retryLoop, ha, hc]
      rw [ih (a + 1) (fun j hj1 hj2 => hagree j (by omega) (by omega))]

/-- All attempts in the window raise: `retryLoop` re-raises the last
exception after exponential-backoff waits over the earlier attempts. -/
theorem retryLoop_all_fail {α : Type} (results : Nat → Except String α)
    (maxRetries : Nat) (delay : ℚ) (e : Nat → String) :
    ∀ (fuel attempt : Nat), attempt + fuel = maxRetries → 1 ≤ fuel →
    (∀ j, attempt ≤ j → j < maxRetries → results j = .error (e j)) →
    retryLoop results maxRetries delay attempt fuel =
      (.error (e (maxRetries - 1)),
        (List.range' attempt (fuel - 1)).map (fun j => delay * 2 ^ j)) := by
  intro fuel
  induction fuel with
  | zero => intro a _ h1; omega
  | succ n ih =>
    intro a htot _ hfail
    have ha : results a = .error (e a) := hfail a le_rfl (by omega)
    simp only [retryLoop, ha]
    cases n with
    | zero =>
      have hL : a = maxRetries - 1 := by omega
      rw [if_pos hL, hL]
      simp
    | succ m =>
      have hL : ¬ a = maxRetries - 1 := by omega
      rw [if_neg hL]
      rw [ih (a + 1) (by omega) (by omega)
        (fun j hj1 hj2 => hfail j (by omega) hj2)]
      simp only [Nat.succ_sub_one, Prod.mk.injEq, true_and]
      rw [List.range'_succ]
      simp

/-- The first non-raising attempt's value is returned unchanged, after
exponential-backoff waits over the earlier failing attempts. -/
theorem retryLoop_first_ok {α : Type} (results : Nat → Except String α)
    (maxRetries : Nat) (delay : ℚ) (i0 : Nat) (v : α) :
    ∀ (fuel attempt : Nat), attempt + fuel = maxRetries → attempt ≤ i0 →
    i0 < maxRetries → results i0 = .ok v →
    (∀ j, attempt ≤ j → j < i0 → ∃ msg, results j = .error msg) →
    retryLoop results maxRetries delay attempt fuel =
      (.ok (some v),
        (List.range' attempt (i0 - attempt)).map (fun j => delay * 2 ^ j)) := by
  intro fuel
  induction fuel with
  | zero => intro a htot h1 h2 _ _; omega
  | succ n ih =>
    intro a htot hle hlt hok hfail
    by_cases hai : a = i0
    · subst hai
      simp only [retryLoop, hok]
      simp
    · obtain ⟨msg, hmsg⟩ := hfail a le_rfl (by omega)
      simp only [retryLoop, hmsg]
      have hL : ¬ a = maxRetries - 1 := by omega
      rw [if_neg hL]
      rw [ih (a + 1) (by omega) (by omega) hlt hok
        (fun j hj1 hj2 => hfail j (by omega) hj2)]
      simp only [Prod.mk.injEq, true_and]
      rw [show i0 - a = (i0 - (a + 1)) + 1 by omega, List.range'_succ]
      simp

/-- C6 (amended): `retry_transaction` invokes the supplied function at
most `max_retries` times (the result only depends on the first
`max_retries` invocation outcomes); when all attempts fail it re-raises
the final attempt's exception after waiting `delay * 2 ** attempt` —
exponential backoff, not a fixed attempt-independent delay — between
consecutive attempts; and when some attempt succeeds its value is
returned unchanged. -/
theorem retry_transaction_spec {α : Type} (results : Nat → Except String α)
    (maxRetries : Nat) (delay : ℚ) (e : Nat → String) (i0 : Nat) (v : α) :
    (∀ results2 : Nat → Except String α,
      (∀ j < maxRetries, results j = results2 j) →
      retry_transaction results maxRetries delay =
        retry_transaction results2 maxRetries delay) ∧
    (1 ≤ maxRetries → (∀ j < maxRetries, results j = .error (e j)) →
      retry_transaction results maxRetries delay =
        (.error (e (maxRetries - 1)),
          (List.range (maxRetries - 1)).map (fun j => delay * 2 ^ j))) ∧
    (i0 < maxRetries → results i0 = .ok v →
      (∀ j < i0, ∃ msg, results j = .error msg) →
      retry_transaction results maxRetries delay =
        (.ok (some v), (List.range i0).map (fun j => delay * 2 ^ j))) := by
  refine ⟨?_, ?_, ?_⟩
  · intro results2 hagree
    exact retryLoop_congr results results2 maxRetries delay maxRetries 0
      (fun j _ hj => hagree j (by omega))
  · intro hmax hfail
    unfold retry_transaction
    rw [retryLoop_all_fail results maxRetries delay e maxRetries 0 (by omega) hmax
      (fun j _ hj => hfail j hj)]
    rw [List.range_eq_range']
  · intro hlt hok hfail
    unfold retry_transaction
    rw [retryLoop_first_ok results maxRetries delay i0 v maxRetries 0 (by omega)
      (by omega) hlt hok (fun j _ hj => hfail j hj)]
    rw [Nat.sub_zero, List.range_eq_range']

/-- Witness for C6 (amended): attempt 0 raises, attempt 1 returns 7; the
call returns 7 unchanged after a single 2-second wait. -/
theorem retry_transaction_spec_witness :
    retry_transaction
      (fun j => if j = 1 then (.ok 7 : Except String Nat) else .error "x") 3 2 =
      (.ok (some 7), [2]) := by
  have h := (retry_transaction_spec
      (fun j => if j = 1 then (.ok 7 : Except String Nat) else .error "x")
      3 2 (fun _ => "x") 1 7).2.2 (by omega) rfl ?_
  · rw [h]
    norm_num [List.range_succ]
  · intro j hj
    have hj0 : j = 0 := by omega
    subst hj0
    exact ⟨"x", rfl⟩

/-! ## C5 -/

/-- `uploadLoop` returns `.ok v` iff some service succeeds with `v` after
every service before it raised. -/
theorem uploadLoop_ok_iff (run : Service → Except String String) :
    ∀ (l : List Service) (v : String),
    uploadLoop run l = .ok v ↔
      ∃ pre svc post, l = pre ++ svc :: post ∧
        (∀ t ∈ pre, ∃ e, run t = .error e) ∧ run svc = .ok v := by
  intro l
  induction l with
  | nil =>
    intro v
    constructor
    · intro hv; exact Except.noConfusion hv
    · rintro ⟨pre, svc, post, hdec, -, -⟩
      cases pre with
      | nil => exact List.noConfusion hdec
      | cons p pre' => exact List.noConfusion hdec
  | cons s rest ih =>
    intro v
    cases hr : run s with
    | ok cid =>
      simp only [uploadLoop, hr]
      constructor
      · intro hv
        injection hv with hv
        exact ⟨[], s, rest, rfl, by simp, by rw [hr, hv]⟩
      · rintro ⟨pre, svc, post, hdec, hfail, hok⟩
        cases pre with
        | nil =>
          simp only [List.nil_append, List.cons.injEq] at hdec
          rw [← hdec.1] at hok
          rw [hr] at hok
          exact hok
        | cons p pre' =>
          simp only [List.cons_append, List.cons.injEq] at hdec
          obtain ⟨e, he⟩ := hfail p (List.mem_cons_self _ _)
          rw [← hdec.1, hr] at he
          exact Except.noConfusion he
    | error e0 =>
      simp only [uploadLoop, hr]
      rw [ih v]
      constructor
      · rintro ⟨pre, svc, post, hdec, hfail, hok⟩
        refine ⟨s :: pre, svc, post, by rw [List.cons_append, hdec], ?_, hok⟩
        intro t ht
        rcases List.mem_cons.mp ht with rfl | ht
        · exact ⟨e0, hr⟩
        · exact hfail t ht
      · rintro ⟨pre, svc, post, hdec, hfail, hok⟩
        cases pre with
        | nil =>
          simp only [List.nil_append, List.cons.injEq] at hdec
          rw [← hdec.1, hr] at hok
          exact Except.noConfusion hok
        | cons p pre' =>
          simp only [List.cons_append, List.cons.injEq] at hdec
          refine ⟨pre', svc, post, hdec.2, ?_, hok⟩
          intro t ht
          exact hfail t (List.mem_cons_of_mem _ ht)

/-- `uploadLoop` raises `'All IPFS upload methods failed'` iff every
service raises. -/
theorem uploadLoop_error_iff (run : Service → Except String String) :
    ∀ l : List Service,
    uploadLoop run l = .error "All IPFS upload methods failed" ↔
      ∀ svc ∈ l, ∃ e, run svc = .error e := by
  intro l
  induction l with
  | nil => simp [uploadLoop]
  | cons s rest ih =>
    cases hr : run s with
    | ok cid =>
      simp only [uploadLoop, hr]
      constructor
      · intro hv; exact Except.noConfusion hv
      · intro hall
        obtain ⟨e, he⟩ := hall s (List.mem_cons_self _ _)
        rw [hr] at he
        exact Except.noConfusion he
    | error e0 =>
      simp only [uploadLoop, hr]
      rw [ih]
      constructor
      · intro hall t ht
        rcases List.mem_cons.mp ht with rfl | ht
        · exact ⟨e0, hr⟩
        · exact hall t ht
      · intro hall t ht
        exact hall t (List.mem_cons_of_mem _ ht)

/-- C5: the service priority is Pinata (only with both credentials),
then Web3.Storage (only with a token), then the local IPFS node, then
the local-file fallback; for a missing file `upload_to_ipfs` raises
`FileNotFoundError` before consulting any service; otherwise it returns
the first service result that does not raise, and raises
`'All IPFS upload methods failed'` iff every service raises. -/
theorem upload_to_ipfs_spec (c : IPFSConfig) (filePath : String)
    (run : Service → Except String String) :
    (_determine_service_priority c =
      if truthy c.pinata_api_key && truthy c.pinata_api_secret then
        (if truthy c.web3_storage_token then
          [.pinata, .web3_storage, .local_ipfs, .local_file]
        else [.pinata, .local_ipfs, .local_file])
      else
        (if truthy c.web3_storage_token then
          [.web3_storage, .local_ipfs, .local_file]
        else [.local_ipfs, .local_file])) ∧
    (upload_to_ipfs (_determine_service_priority c) false filePath run =
      .error ("File not found: " ++ filePath)) ∧
    (∀ v, upload_to_ipfs (_determine_service_priority c) true filePath run = .ok v ↔
      ∃ pre svc post, _determine_service_priority c = pre ++ svc :: post ∧
        (∀ t ∈ pre, ∃ e, run t = .error e) ∧ run svc = .ok v) ∧
    (upload_to_ipfs (_determine_service_priority c) true filePath run =
        .error "All IPFS upload methods failed" ↔
      ∀ svc ∈ _determine_service_priority c, ∃ e, run svc = .error e) := by
  refine ⟨?_, rfl, ?_, ?_⟩
  · unfold _determine_service_priority
    by_cases h1 : truthy c.pinata_api_key && truthy c.pinata_api_secret
    · by_cases h2 : truthy c.web3_storage_token
      · simp [h1, h2]
      · simp [h1, h2]
    · by_cases h2 : truthy c.web3_storage_token
      · simp [h1, h2]
      · simp [h1, h2]
  · intro v
    show uploadLoop run (_determine_service_priority c) = .ok v ↔ _
    exact uploadLoop_ok_iff run (_determine_service_priority c) v
  · show uploadLoop run (_determine_service_priority c) = .error _ ↔ _
    exact uploadLoop_error_iff run (_determine_service_priority c)

/-- Witness for C5: Pinata credentials but no Web3.Storage token; Pinata
raises and the local node succeeds, so the upload returns the local
node's CID. -/
theorem upload_to_ipfs_spec_witness :
    _determine_service_priority ⟨some "k", some "s", none⟩ =
      [.pinata, .local_ipfs, .local_file] ∧
    upload_to_ipfs (_determine_service_priority ⟨some "k", some "s", none⟩) true "f.pdf"
      (fun svc => if svc = .local_ipfs then .ok "QmX" else .error "down") =
      .ok "QmX" := by
  have h := upload_to_ipfs_spec ⟨some "k", some "s", none⟩ "f.pdf"
    (fun svc => if svc = .local_ipfs then .ok "QmX" else .error "down")
  have hpr : _determine_service_priority ⟨some "k", some "s", none⟩ =
      [.pinata, .local_ipfs, .local_file] := by
    rw [h.1]; rfl
  refine ⟨hpr, ?_⟩
  refine (h.2.2.1 "QmX").mpr ⟨[.pinata], .local_ipfs, [.local_file], by rw [hpr]; rfl, ?_, rfl⟩
  intro t ht
  rcases List.mem_cons.mp ht with rfl | ht
  · exact ⟨"down", rfl⟩
  · exact absurd ht (List.not_mem_nil t)

/-! ## C9 -/

/-- A prefix check only inspects `sep.length` characters, so appending
past a sufficiently long head changes nothing. -/
theorem isPrefixOf_append_of_le (sep u w : List Char)
    (hle : sep.length ≤ u.length) :
    sep.isPrefixOf (u ++ w) = sep.isPrefixOf u := by
  induction sep generalizing u with
  | nil => simp [List.isPrefixOf]
  | cons d sd ih =>
    cases u with
    | nil => simp at hle
    | cons c cu =>
      simp only [List.cons_append, List.isPrefixOf, List.append_eq]
      rw [ih cu (by simpa using hle)]

theorem isPrefixOf_self (l : List Char) : l.isPrefixOf l = true := by
  induction l with
  | nil => rfl
  | cons c cs ih => simp [List.isPrefixOf, ih]

/-- Splitting a list that contains no occurrence of the separator's
first character leaves it whole. -/
theorem pySplitAux_no_sep (d : Char) (sep' : List Char) :
    ∀ (h : List Char) (fuel : Nat), h.length ≤ fuel → d ∉ h →
    pySplitAux (d :: sep') fuel h = [h] := by
  intro h
  induction h with
  | nil => intro fuel _ _; cases fuel <;> rfl
  | cons c rest ih =>
    intro fuel hfuel hd
    cases fuel with
    | zero => simp at hfuel
    | succ f =>
      have hdc : (d == c) = false := by
        simp only [beq_eq_false_iff_ne, ne_eq]
        intro hh; rw [hh] at hd; exact hd (List.mem_cons_self _ _)
      have hpre : (d :: sep').isPrefixOf (c :: rest) = false := by
        simp [List.isPrefixOf, hdc]
      simp only [pySplitAux]
      rw [if_neg (by simp [hpre])]
      rw [ih f (by simpa using hfuel) (fun hm => hd (List.mem_cons_of_mem _ hm))]

/-- Walking a head `G` free of separator occurrences, the split of
`G ++ sep ++ h` (with `h` free of the separator's first character) cuts
exactly once, at the marked position. -/
theorem pySplitAux_walk (d : Char) (sep' : List Char) (h : List Char)
    (hd : d ∉ h) :
    ∀ (G : List Char) (fuel : Nat),
    (G ++ (d :: sep') ++ h).length ≤ fuel →
    (∀ t ∈ G.tails, t ≠ [] →
      (d :: sep').isPrefixOf (t ++ (d :: sep')) = false) →
    pySplitAux (d :: sep') fuel (G ++ (d :: sep') ++ h) = [G, h] := by
  intro G
  induction G with
  | nil =>
    intro fuel hfuel _
    simp only [List.nil_append] at hfuel ⊢
    cases fuel with
    | zero => simp at hfuel
    | succ f =>
      have hpre : (d :: sep').isPrefixOf ((d :: sep') ++ h) = true :=
        (isPrefixOf_append_of_le _ _ _ le_rfl).trans (isPrefixOf_self _)
      show pySplitAux (d :: sep') (f + 1) (d :: (sep' ++ h)) = [[], h]
      simp only [pySplitAux]
      rw [if_pos ⟨by simp only [List.cons_append] at hpre ⊢; exact hpre, by simp⟩]
      show [] :: pySplitAux (d :: sep') f
        (List.drop (d :: sep').length ((d :: sep') ++ h)) = [[], h]
      rw [List.drop_left]
      rw [pySplitAux_no_sep d sep' h f (by simp at hfuel; omega) hd]
  | cons c G' ih =>
    intro fuel hfuel hclean
    cases fuel with
    | zero => simp at hfuel
    | succ f =>
      have h0 : (d :: sep').isPrefixOf (((c :: G') ++ (d :: sep')) ++ h) =
          (d :: sep').isPrefixOf ((c :: G') ++ (d :: sep')) :=
        isPrefixOf_append_of_le _ _ _ (by simp; omega)
      have h1 : (d :: sep').isPrefixOf ((c :: G') ++ (d :: sep')) = false :=
        hclean (c :: G') ((List.mem_tails _ _).mpr (List.suffix_refl _)) (by simp)
      have hpre : (d :: sep').isPrefixOf (c :: ((G' ++ (d :: sep')) ++ h)) = false :=
        h0.trans h1
      show pySplitAux (d :: sep') (f + 1) (c :: ((G' ++ (d :: sep')) ++ h)) =
        [c :: G', h]
      simp only [pySplitAux]
      rw [if_neg (by simp only [hpre]; simp)]
      rw [ih f (by simp at hfuel ⊢; omega)
        (fun t ht hne => hclean t ((List.mem_tails _ _).mpr
          (((List.mem_tails _ _).mp ht).trans (List.suffix_cons c G'))) hne)]

/-- Extracting back from a gateway URL `G ++ "/ipfs/" ++ h` recovers a
valid slash-free hash `h`. -/
theorem extract_cid_gateway (G h : List Char)
    (hclean : ∀ t ∈ G.tails, t ≠ [] →
      ("/ipfs/".toList).isPrefixOf (t ++ "/ipfs/".toList) = false)
    (hslash : ('/' : Char) ∉ h)
    (hvalid : validate_ipfs_hash h = true) :
    extract_cid_from_url (G ++ "/ipfs/".toList ++ h) = some h := by
  have hsep : "/ipfs/".toList = '/' :: "ipfs/".toList := rfl
  rw [hsep] at hclean
  have hsplit : pySplit ("/ipfs/".toList) (G ++ "/ipfs/".toList ++ h) = [G, h] := by
    unfold pySplit
    rw [hsep]
    exact pySplitAux_walk '/' ("ipfs/".toList) h hslash G _ le_rfl hclean
  have hsplit2 : pySplit ['/'] h = [h] := by
    unfold pySplit
    exact pySplitAux_no_sep '/' [] h h.length le_rfl hslash
  unfold extract_cid_from_url
  rw [hsplit]
  simp [hsplit2, hvalid]

/-- C9 counterexample: `badHash` is accepted by `validate_ipfs_hash` and
is not a `local://` reference, so `generate_ipfs_urls` produces gateway
URLs for it — but extracting the CID back from the first gateway URL
fails (the `'/'` inside the hash truncates the split), breaking the
round trip the claim asserts. -/
theorem ipfs_roundtrip_counterexample :
    validate_ipfs_hash badHash = true ∧
    ("local://".toList).isPrefixOf badHash = false ∧
    ("https://ipfs.io/ipfs/".toList ++ badHash) ∈ generate_ipfs_urls badHash ∧
    extract_cid_from_url ("https://ipfs.io/ipfs/".toList ++ badHash) = none := by
  refine ⟨by decide, by decide, by decide, by decide⟩

/-- C9 (amended): for every hash accepted by `validate_ipfs_hash` that
does not start with `local://` and contains no `'/'` character,
`generate_ipfs_urls` returns exactly 4 gateway URLs and
`extract_cid_from_url` recovers the original hash from each of them; for
every hash rejected by `validate_ipfs_hash`, `generate_ipfs_urls`
returns the empty list. -/
theorem ipfs_urls_roundtrip (h : List Char)
    (hvalid : validate_ipfs_hash h = true)
    (hlocal : ("local://".toList).isPrefixOf h = false)
    (hslash : ('/' : Char) ∉ h) :
    (generate_ipfs_urls h).length = 4 ∧
    (∀ u ∈ generate_ipfs_urls h, extract_cid_from_url u = some h) ∧
    (∀ h2 : List Char, validate_ipfs_hash h2 = false →
      generate_ipfs_urls h2 = []) := by
  have hgen : generate_ipfs_urls h =
      [ "https://ipfs.io/ipfs/".toList ++ h,
        "https://gateway.pinata.cloud/ipfs/".toList ++ h,
        "https://cloudflare-ipfs.com/ipfs/".toList ++ h,
        "https://dweb.link/ipfs/".toList ++ h ] := by
    unfold generate_ipfs_urls
    rw [if_neg (by rw [hvalid]; exact (by decide : ¬ ((!true) = true))),
        if_neg (by rw [hlocal]; exact Bool.false_ne_true)]
  refine ⟨by rw [hgen]; rfl, ?_, ?_⟩
  · intro u hu
    rw [hgen] at hu
    simp only [List.mem_cons, List.not_mem_nil, or_false] at hu
    rcases hu with rfl | rfl | rfl | rfl
    · rw [show "https://ipfs.io/ipfs/".toList =
        "https://ipfs.io".toList ++ "/ipfs/".toList from rfl]
      exact extract_cid_gateway _ h (by decide) hslash hvalid
    · rw [show "https://gateway.pinata.cloud/ipfs/".toList =
        "https://gateway.pinata.cloud".toList ++ "/ipfs/".toList from rfl]
      exact extract_cid_gateway _ h (by decide) hslash hvalid
    · rw [show "https://cloudflare-ipfs.com/ipfs/".toList =
        "https://cloudflare-ipfs.com".toList ++ "/ipfs/".toList from rfl]
      exact extract_cid_gateway _ h (by decide) hslash hvalid
    · rw [show "https://dweb.link/ipfs/".toList =
        "https://dweb.link".toList ++ "/ipfs/".toList from rfl]
      exact extract_cid_gateway _ h (by decide) hslash hvalid
  · intro h2 hinv
    unfold generate_ipfs_urls
    rw [if_pos (by rw [hinv]; exact rfl)]

/-- Witness for C9 (amended): a well-formed `Qm` hash round-trips
through the first gateway URL. -/
theorem ipfs_urls_roundtrip_witness :
    (generate_ipfs_urls goodHash).length = 4 ∧
    extract_cid_from_url ("https://ipfs.io/ipfs/".toList ++ goodHash) =
      some goodHash := by
  have h := ipfs_urls_roundtrip goodHash (by decide) (by decide) (by decide)
  exact ⟨h.1, h.2.1 _ (by decide)⟩

end GithubProtectionAgent
